import Mathlib

/-!
Verification of the gen-nft application (`src/examples/gen-nft/src/lib.rs`)
of the linera-protocol repository.

The file contains a shallow embedding of the library's data model and of
`Nft::create_token_id`, `NftOutput::new` and `Display for TokenId`, together
with a model, written from the specification, of the parts of the custody
protocol (per-chain ledger, operation dispatch, message handling with bounce
compensation) whose code is not part of the published sources.

Bytes are modelled as `Nat` (every real byte is `< 256`); machine `u64`
values are `Nat` reduced modulo `2 ^ 64` at the points where the code
serializes them.
-/

namespace GenNft

/-! ## Bytes and canonical serialization

`ChainId`, `ApplicationId` and `AccountOwner` come from `linera_sdk::base`
(respectively the `fungible` example), which is code of this repository that
is not among the published sources.  Modelled from the spec: the spec (§3,
§4.1, §6) treats them as opaque identifiers that possess a canonical (BCS)
binary serialization, so each is modelled by that serialization, an opaque
byte sequence (canonical serialization is injective, hence two identifiers
are equal exactly when their serializations are). -/

/-- Modelled from the spec: the identifier of a chain, represented by its
canonical (BCS) serialization (`linera_sdk::base::ChainId` is not among the
published sources). -/
structure ChainId where
  bcsBytes : List Nat
deriving DecidableEq

/-- Modelled from the spec: the identifier of an application instance,
represented by its canonical (BCS) serialization
(`linera_sdk::base::ApplicationId` is not among the published sources). -/
structure ApplicationId where
  bcsBytes : List Nat
deriving DecidableEq

/-- Modelled from the spec: the identifier of a principal (an owner),
represented by its canonical (BCS) serialization
(`linera_sdk::base::AccountOwner` is not among the published sources). -/
structure AccountOwner where
  bcsBytes : List Nat
deriving DecidableEq

/-- Modelled from the spec: an account `{chain_id, owner}` designating a
principal on a specific chain (`fungible::Account` is not among the
published sources; the spec, §3, gives exactly these two fields). -/
structure Account where
  chain_id : ChainId
  owner : AccountOwner
deriving DecidableEq

/-- The error type of the `bcs` serialization crate, opaque here. -/
inductive BcsError where
  | failure
deriving DecidableEq

/-- `ToBcsBytes::to_bcs_bytes` for `ChainId`: BCS serialization of the
fixed-form identifier, which never fails. -/
def ChainId.to_bcs_bytes (c : ChainId) : Except BcsError (List Nat) :=
  .ok c.bcsBytes

/-- `ToBcsBytes::to_bcs_bytes` for `ApplicationId`. -/
def ApplicationId.to_bcs_bytes (a : ApplicationId) : Except BcsError (List Nat) :=
  .ok a.bcsBytes

/-- `ToBcsBytes::to_bcs_bytes` for `AccountOwner`. -/
def AccountOwner.to_bcs_bytes (m : AccountOwner) : Except BcsError (List Nat) :=
  .ok m.bcsBytes

/-- The eight little-endian bytes of a 64-bit word (used both by the BCS
serialization of `u64` and by the byte extraction of Keccak lanes). -/
def word64Bytes (v : Nat) : List Nat :=
  [v % 256, v / 256 % 256, v / 256 ^ 2 % 256, v / 256 ^ 3 % 256,
   v / 256 ^ 4 % 256, v / 256 ^ 5 % 256, v / 256 ^ 6 % 256, v / 256 ^ 7 % 256]

/-- `ToBcsBytes::to_bcs_bytes` for `u64`: BCS serializes a `u64` as its
eight little-endian bytes; the Rust value is a machine word, so the model
reduces the `Nat` argument modulo `2 ^ 64`. -/
def u64ToBcsBytes (n : Nat) : Except BcsError (List Nat) :=
  .ok (word64Bytes (n % 2 ^ 64))

/-- The UTF-8 encoding of one character (standard four-range encoding; a
Rust `String` exposes exactly these bytes through `AsRef<[u8]>`). -/
def utf8EncChar (c : Char) : List Nat :=
  let n := c.toNat
  if n < 0x80 then [n]
  else if n < 0x800 then [0xC0 + n / 64, 0x80 + n % 64]
  else if n < 0x10000 then [0xE0 + n / 4096, 0x80 + n / 64 % 64, 0x80 + n % 64]
  else [0xF0 + n / 262144, 0x80 + n / 4096 % 64, 0x80 + n / 64 % 64, 0x80 + n % 64]

/-- The UTF-8 bytes of a string (what `hasher.update(prompt)` feeds to the
digest: the raw bytes of the string, with no length prefix). -/
def stringUtf8 (s : String) : List Nat :=
  s.data.foldr (fun c acc => utf8EncChar c ++ acc) []

/-! ## SHA3-256

A complete executable implementation of the digest used by
`Nft::create_token_id` (the `sha3` crate's `Sha3_256`): the Keccak-f[1600]
permutation, multi-rate padding with the SHA3 domain bits, rate 136 bytes,
32-byte output.  The 25 lanes are 64-bit words held as `Nat` and reduced
modulo `2 ^ 64` by every rotation. -/

/-- Left rotation of a 64-bit lane. -/
def rotl64 (x n : Nat) : Nat :=
  ((x <<< (n % 64)) ||| (x >>> (64 - n % 64))) % 2 ^ 64

/-- The 24 round constants of Keccak-f[1600] (FIPS 202), written in
decimal. -/
def keccakRC : List Nat :=
  [1, 32898, 9223372036854808714,
   9223372039002292224, 32907, 2147483649,
   9223372039002292353, 9223372036854808585, 138,
   136, 2147516425, 2147483658,
   2147516555, 9223372036854775947, 9223372036854808713,
   9223372036854808579, 9223372036854808578, 9223372036854775936,
   32778, 9223372039002259466, 9223372039002292353,
   9223372036854808704, 2147483649, 9223372039002292232]

/-- The rho rotation schedule of FIPS 202, computed from its definition:
starting at lane `(1, 0)`, step `t` gives that lane the offset
`(t + 1) (t + 2) / 2 mod 64` and moves to `(y, (2 x + 3 y) mod 5)`; the
result pairs each lane index `x + 5 * y` with its offset (lane 0 keeps
offset 0). -/
def keccakRotPairs : List (Nat × Nat) :=
  ((List.range 24).foldl
    (fun st t =>
      ((st.1.2, (2 * st.1.1 + 3 * st.1.2) % 5),
        (st.1.1 + 5 * st.1.2, (t + 1) * (t + 2) / 2 % 64) :: st.2))
    ((1, 0), [])).2

/-- The rho rotation offset of the lane with index `i = x + 5 * y`. -/
def keccakRotAt (i : Nat) : Nat :=
  (keccakRotPairs.lookup i).getD 0

/-- The theta step: each lane is xored with the parities of two columns. -/
def keccakTheta (A : List Nat) : List Nat :=
  let get := fun x y => A.getD (x % 5 + 5 * (y % 5)) 0
  let C := fun x => get x 0 ^^^ get x 1 ^^^ get x 2 ^^^ get x 3 ^^^ get x 4
  let D := fun x => C ((x + 4) % 5) ^^^ rotl64 (C ((x + 1) % 5)) 1
  (List.range 25).map (fun i => get (i % 5) (i / 5) ^^^ D (i % 5))

/-- The combined rho and pi steps: lane `(x, y)` receives lane
`((x + 3 y) % 5, x)` rotated by that lane's offset. -/
def keccakRhoPi (A : List Nat) : List Nat :=
  let get := fun x y => A.getD (x % 5 + 5 * (y % 5)) 0
  (List.range 25).map (fun i =>
    let x := i % 5
    let y := i / 5
    rotl64 (get ((x + 3 * y) % 5) x) (keccakRotAt ((x + 3 * y) % 5 + 5 * x)))

/-- The chi step: the only non-linear step. -/
def keccakChi (A : List Nat) : List Nat :=
  let get := fun x y => A.getD (x % 5 + 5 * (y % 5)) 0
  (List.range 25).map (fun i =>
    let x := i % 5
    let y := i / 5
    get x y ^^^ ((get ((x + 1) % 5) y ^^^ (2 ^ 64 - 1)) &&& get ((x + 2) % 5) y))

/-- The iota step: xor the round constant into lane 0. -/
def keccakIota (rc : Nat) (A : List Nat) : List Nat :=
  match A with
  | [] => []
  | a0 :: rest => (a0 ^^^ rc) :: rest

/-- The full Keccak-f[1600] permutation: 24 rounds. -/
def keccakF (A : List Nat) : List Nat :=
  keccakRC.foldl (fun st rc => keccakIota rc (keccakChi (keccakRhoPi (keccakTheta st)))) A

/-- SHA3 multi-rate padding (`0x06 0x00 ... 0x80`, collapsed to `0x86` when
a single padding byte is needed) bringing a message of length `len` to a
multiple of the 136-byte rate. -/
def sha3Pad (len : Nat) : List Nat :=
  let q := 136 - len % 136
  if q = 1 then [0x86] else 0x06 :: (List.replicate (q - 2) 0 ++ [0x80])

/-- A 64-bit lane from (up to) eight little-endian bytes. -/
def laneFromBytes (bs : List Nat) : Nat :=
  bs.foldr (fun b acc => b + 256 * acc) 0

/-- Absorb one 136-byte block into the state, then permute. -/
def absorbBlock (st block : List Nat) : List Nat :=
  let lanes := (List.range 17).map (fun i => laneFromBytes ((block.drop (8 * i)).take 8))
  keccakF ((List.range 25).map (fun i => st.getD i 0 ^^^ lanes.getD i 0))

/-- Absorb a padded message, 136 bytes at a time; structural recursion on a
fuel bound so that the definition evaluates inside the kernel.  Each step
consumes at least one byte, so a fuel of the message length is enough. -/
def absorbBlocksGo : Nat → List Nat → List Nat → List Nat
  | _, st, [] => st
  | 0, st, _ :: _ => st
  | fuel + 1, st, b :: bs =>
      absorbBlocksGo fuel (absorbBlock st ((b :: bs).take 136)) ((b :: bs).drop 136)

/-- Absorb a padded message, 136 bytes at a time. -/
def absorbBlocks (st bs : List Nat) : List Nat :=
  absorbBlocksGo bs.length st bs

/-- SHA3-256 of a byte sequence: pad, absorb, and squeeze the first four
lanes (32 bytes, one rate is always enough for a 256-bit output). -/
def sha3_256 (msg : List Nat) : List Nat :=
  let st := absorbBlocks (List.replicate 25 0) (msg ++ sha3Pad msg.length)
  word64Bytes (st.getD 0 0) ++ word64Bytes (st.getD 1 0) ++
    word64Bytes (st.getD 2 0) ++ word64Bytes (st.getD 3 0)

/-! ## The data model of `lib.rs` -/

/-- `TokenId` (lib.rs, lines 187-193): an opaque byte vector. -/
structure TokenId where
  id : List Nat
deriving DecidableEq

/-- `Operation` (lib.rs, lines 207-229). -/
inductive Operation where
  | Mint (minter : AccountOwner) (prompt : String)
  | Transfer (source_owner : AccountOwner) (token_id : TokenId) (target_account : Account)
  | Claim (source_account : Account) (token_id : TokenId) (target_account : Account)
deriving DecidableEq

/-- `Nft` (lib.rs, lines 246-253). -/
structure Nft where
  token_id : TokenId
  owner : AccountOwner
  prompt : String
  minter : AccountOwner
deriving DecidableEq

/-- `Message` (lib.rs, lines 231-244).  Its source documentation reads:
transfers to the given `target` account, unless the message is bouncing, in
which case we transfer back to the `source`. -/
inductive Message where
  | Transfer (nft : Nft) (target_account : Account)
  | Claim (source_account : Account) (token_id : TokenId) (target_account : Account)
deriving DecidableEq

/-- `NftOutput` (lib.rs, lines 255-262): the externally visible form of an
`Nft`, whose `token_id` is a text string. -/
structure NftOutput where
  token_id : String
  owner : AccountOwner
  prompt : String
  minter : AccountOwner
deriving DecidableEq

/-! ## The incremental hasher of the `sha3` crate

`Sha3_256::new() / update / finalize`: a sponge absorbs incrementally, so
the incremental interface is the digest of the concatenation of all update
calls; the model keeps the concatenated buffer and digests it at
`finalize`. -/

/-- The incremental SHA3-256 hasher state. -/
structure Sha3Hasher where
  buffer : List Nat
deriving DecidableEq

/-- `Sha3_256::new()`. -/
def Sha3Hasher.new : Sha3Hasher := ⟨[]⟩

/-- `Digest::update`: absorb further bytes. -/
def Sha3Hasher.update (h : Sha3Hasher) (bs : List Nat) : Sha3Hasher :=
  ⟨h.buffer ++ bs⟩

/-- `Digest::finalize`: the SHA3-256 digest of everything absorbed. -/
def Sha3Hasher.finalize (h : Sha3Hasher) : List Nat :=
  sha3_256 h.buffer

/-! ## `Nft::create_token_id` (lib.rs, lines 292-313) -/

/-- `Nft::create_token_id`: digest the BCS bytes of the chain id, the BCS
bytes of the application id, the raw prompt bytes, the BCS bytes of the
minter and the BCS bytes of the `u64` mint counter, in that order. -/
def Nft.create_token_id (chain_id : ChainId) (application_id : ApplicationId)
    (prompt : String) (minter : AccountOwner) (num_minted_nfts : Nat) :
    Except BcsError TokenId := do
  let hasher := Sha3Hasher.new
  let hasher := hasher.update (← chain_id.to_bcs_bytes)
  let hasher := hasher.update (← application_id.to_bcs_bytes)
  let hasher := hasher.update (stringUtf8 prompt)
  let hasher := hasher.update (← minter.to_bcs_bytes)
  let hasher := hasher.update (← u64ToBcsBytes num_minted_nfts)
  return { id := hasher.finalize }

/-- The exact byte stream that `Nft.create_token_id` feeds to the digest. -/
def tokenIdStream (chain_id : ChainId) (application_id : ApplicationId)
    (prompt : String) (minter : AccountOwner) (num_minted_nfts : Nat) : List Nat :=
  (((chain_id.bcsBytes ++ application_id.bcsBytes) ++ stringUtf8 prompt) ++
    minter.bcsBytes) ++ word64Bytes (num_minted_nfts % 2 ^ 64)

/-! ## `NftOutput::new` (lib.rs, lines 264-274) and `Display` (lines 286-290) -/

/-- The standard base64 alphabet. -/
def base64Alphabet : List Char :=
  "ABCDEFGHIJKLMNOPQRSTUVWXYZabcdefghijklmnopqrstuvwxyz0123456789+/".data

/-- One base64 digit. -/
def base64Char (n : Nat) : Char :=
  base64Alphabet.getD (n % 64) 'A'

/-- Base64 digits of a byte sequence, three bytes to four digits, with the
unpadded tail treatment of a final group of one or two bytes. -/
def base64Chunks : List Nat → List Char
  | b0 :: b1 :: b2 :: rest =>
      base64Char (b0 / 4) :: base64Char (b0 % 4 * 16 + b1 / 16) ::
        base64Char (b1 % 16 * 4 + b2 / 64) :: base64Char (b2 % 64) :: base64Chunks rest
  | [b0, b1] => [base64Char (b0 / 4), base64Char (b0 % 4 * 16 + b1 / 16), base64Char (b1 % 16 * 4)]
  | [b0] => [base64Char (b0 / 4), base64Char (b0 % 4 * 16)]
  | [] => []

/-- `base64::engine::general_purpose::STANDARD_NO_PAD.encode`: standard
alphabet, no `=` padding. -/
def standardNoPadEncode (bs : List Nat) : String :=
  String.mk (base64Chunks bs)

/-- `NftOutput::new` (lib.rs, lines 265-274): base64-encode the raw token
id bytes, copy the other fields. -/
def NftOutput.new (nft : Nft) : NftOutput :=
  { token_id := standardNoPadEncode nft.token_id.id
    owner := nft.owner
    prompt := nft.prompt
    minter := nft.minter }

/-- Rust's `Debug` rendering of a `Vec<u8>`: the decimal bytes, separated
by comma and space, between square brackets. -/
def debugByteList (l : List Nat) : String :=
  "[" ++ String.intercalate ", " (l.map toString) ++ "]"

/-- `Display for TokenId` (lib.rs, lines 286-290): `write!(f, "{:?}", self.id)`,
the `Debug` rendering of the raw byte vector. -/
def TokenId.display (t : TokenId) : String :=
  debugByteList t.id

/-! ## Concrete inputs used by the witnesses -/

/-- A concrete chain identifier. -/
def demoChain : ChainId := ⟨[]⟩

/-- A concrete application identifier. -/
def demoApp : ApplicationId := ⟨[]⟩

/-- A concrete minter. -/
def demoMinter : AccountOwner := ⟨[]⟩

/-- A first colliding prompt: the empty string. -/
def collidePromptA : String := ""

/-- A second colliding prompt: one NUL character, whose UTF-8 byte absorbs
the first byte of the other tuple's serialized minter. -/
def collidePromptB : String := "\x00"

/-- A first colliding minter, whose serialization is two bytes long. -/
def collideMinterA : AccountOwner := ⟨[0, 7]⟩

/-- A second colliding minter, whose serialization is one byte long. -/
def collideMinterB : AccountOwner := ⟨[7]⟩

/-! ## The cross-chain custody protocol

The contract that executes operations and messages against the per-chain
ledger is code of this repository that is not among the published sources
(only `lib.rs` is).  Modelled from the spec (§4.2-§4.4, §5): a global
system state holds one ledger (a partial map from `TokenId` to `Nft`) and
one mint counter per chain, plus the multiset of in-flight messages; a step
relation captures every operation execution, message delivery and bounce.
Each step fires only when the corresponding validation succeeds (a failed
operation or message leaves the state unchanged, §7), and every inbound
message may nondeterministically be bounced instead of delivered (§4.4). -/

/-- An in-flight cross-chain message: the chain that sent it, the chain it
is addressed to, and the `Message` payload. -/
structure Packet where
  origin : ChainId
  dest : ChainId
  payload : Message
deriving DecidableEq

/-- The global system state: per-chain ledgers and mint counters, plus the
in-flight messages. -/
structure SysState where
  ledgers : ChainId → TokenId → Option Nft
  counters : ChainId → Nat
  inFlight : List Packet

/-- Update one ledger entry. -/
def SysState.setLedger (s : SysState) (c : ChainId) (tid : TokenId)
    (v : Option Nft) : SysState :=
  { s with ledgers := fun c2 t2 => if c2 = c ∧ t2 = tid then v else s.ledgers c2 t2 }

/-- Whether a packet holds custody of the token `tid`: only a `Transfer`
message carries an `Nft` (a `Claim` is a request and carries no token). -/
def Packet.carriesTid (p : Packet) (tid : TokenId) : Bool :=
  match p.payload with
  | .Transfer nft _ => decide (nft.token_id = tid)
  | .Claim .. => false

/-- How many in-flight messages carry the token `tid`. -/
def SysState.flightCount (s : SysState) (tid : TokenId) : Nat :=
  s.inFlight.countP (fun p => p.carriesTid tid)

/-- Chain `c` has a ledger entry for `tid`. -/
def SysState.holds (s : SysState) (c : ChainId) (tid : TokenId) : Prop :=
  (s.ledgers c tid).isSome = true

/-- The initial system state: empty ledgers, zero counters, no messages. -/
def initState : SysState :=
  ⟨fun _ _ => none, fun _ => 0, []⟩

/-- Modelled from the spec (§4.3-§4.4): one execution step of the custody
protocol for the application instance `app`.  Every constructor acts on
behalf of the authenticated submitter the spec requires (the minter for
`Mint`, the source owner for `Transfer`, the source account's owner for
`Claim`); an operation or message whose validation fails leaves the state
unchanged and is therefore not a step.  A `Claim` submitted on its own
source chain degenerates into the corresponding local or remote transfer
(§4.3), which the two transfer constructors already cover. -/
inductive Step (app : ApplicationId) : SysState → SysState → Prop
  /-- `Operation::Mint`: derive the token id from the chain's current
  counter, insert the new `Nft` locally, increment the counter.  The
  derived id is globally new: the spec (§4.1) treats a digest collision as
  cryptographically impossible and lets an implementation assert it. -/
  | mint (s : SysState) (chain : ChainId) (minter : AccountOwner) (prompt : String)
      (tid : TokenId)
      (hderive : Nft.create_token_id chain app prompt minter (s.counters chain) =
        Except.ok tid)
      (hfresh : ∀ c, s.ledgers c tid = none)
      (hflight : s.flightCount tid = 0) :
      Step app s
        { (s.setLedger chain tid (some ⟨tid, minter, prompt, minter⟩)) with
          counters := fun c => if c = chain then s.counters chain + 1 else s.counters c }
  /-- `Operation::Transfer` with a local target: the owner changes in
  place, no message is emitted. -/
  | transferLocal (s : SysState) (chain : ChainId) (source_owner : AccountOwner)
      (tid : TokenId) (target : Account) (nft : Nft)
      (hstored : s.ledgers chain tid = some nft)
      (howner : nft.owner = source_owner)
      (hlocal : target.chain_id = chain) :
      Step app s (s.setLedger chain tid (some { nft with owner := target.owner }))
  /-- `Operation::Transfer` with a remote target: the entry leaves the
  local ledger and the `Nft` travels inside a `Message::Transfer` addressed
  to the target chain.  Following the `Message` documentation in lib.rs,
  the carried `Nft` keeps its pre-transfer owner; the receiving handler
  (not the sender) rewrites the owner unless the message bounces. -/
  | transferRemote (s : SysState) (chain : ChainId) (source_owner : AccountOwner)
      (tid : TokenId) (target : Account) (nft : Nft)
      (hstored : s.ledgers chain tid = some nft)
      (howner : nft.owner = source_owner)
      (hremote : target.chain_id ≠ chain) :
      Step app s
        { (s.setLedger chain tid none) with
          inFlight := ⟨chain, target.chain_id, .Transfer nft target⟩ :: s.inFlight }
  /-- `Operation::Claim` with a remote source: a `Message::Claim` request
  is sent to the source chain; no local ledger mutation. -/
  | claimRequest (s : SysState) (chain : ChainId) (source_account : Account)
      (tid : TokenId) (target : Account)
      (hremote : source_account.chain_id ≠ chain) :
      Step app s
        { s with inFlight :=
            ⟨chain, source_account.chain_id, .Claim source_account tid target⟩ ::
              s.inFlight }
  /-- Delivery of `Message::Transfer`, not bouncing: executed on the target
  chain, which must be the packet's destination (defensive check); the
  `Nft` is inserted with its owner set to the target's owner, and
  `insert_returning` demands that no entry for that id already exist. -/
  | deliverTransfer (s : SysState) (l1 l2 : List Packet) (origin : ChainId)
      (nft : Nft) (target : Account)
      (hsplit : s.inFlight = l1 ++ ⟨origin, target.chain_id, .Transfer nft target⟩ :: l2)
      (hfree : s.ledgers target.chain_id nft.token_id = none) :
      Step app s
        { (s.setLedger target.chain_id nft.token_id
            (some { nft with owner := target.owner })) with inFlight := l1 ++ l2 }
  /-- Bounce of `Message::Transfer`: the host returns the message to its
  origin chain, which restores the `Nft` exactly as carried — its owner is
  still the pre-transfer owner embedded in the message. -/
  | bounceTransfer (s : SysState) (l1 l2 : List Packet) (origin dest : ChainId)
      (nft : Nft) (target : Account)
      (hsplit : s.inFlight = l1 ++ ⟨origin, dest, .Transfer nft target⟩ :: l2)
      (hfree : s.ledgers origin nft.token_id = none) :
      Step app s
        { (s.setLedger origin nft.token_id (some nft)) with inFlight := l1 ++ l2 }
  /-- Delivery of `Message::Claim`, not bouncing: executed on the source
  chain; the entry is removed after the ownership check and the `Nft` is
  forwarded inside a `Message::Transfer` to the target chain. -/
  | deliverClaim (s : SysState) (l1 l2 : List Packet) (origin : ChainId)
      (source_account : Account) (tid : TokenId) (target : Account) (nft : Nft)
      (hsplit : s.inFlight =
        l1 ++ ⟨origin, source_account.chain_id, .Claim source_account tid target⟩ :: l2)
      (hstored : s.ledgers source_account.chain_id tid = some nft)
      (howner : nft.owner = source_account.owner) :
      Step app s
        { (s.setLedger source_account.chain_id tid none) with
          inFlight :=
            ⟨source_account.chain_id, target.chain_id, .Transfer nft target⟩ ::
              (l1 ++ l2) }
  /-- Bounce of `Message::Claim`: a claim never moved anything before this
  point, so nothing beyond dropping the request happens. -/
  | bounceClaim (s : SysState) (l1 l2 : List Packet) (origin dest : ChainId)
      (source_account : Account) (tid : TokenId) (target : Account)
      (hsplit : s.inFlight = l1 ++ ⟨origin, dest, .Claim source_account tid target⟩ :: l2) :
      Step app s { s with inFlight := l1 ++ l2 }

/-- The states the system can reach from the initial state. -/
inductive Reachable (app : ApplicationId) : SysState → Prop
  | init : Reachable app initState
  | step {s s2 : SysState} : Reachable app s → Step app s s2 → Reachable app s2

/-- The inductive invariant of the custody protocol: (a) at most one chain
holds a ledger entry for any token id; (b) a token resident on some chain
is carried by no in-flight message; (c) at most one in-flight message
carries any token id; (d) ledgers are well keyed (an entry's `Nft` carries
the id it is stored under). -/
def Inv (s : SysState) : Prop :=
  (∀ tid c1 c2, s.holds c1 tid → s.holds c2 tid → c1 = c2) ∧
  (∀ tid c, s.holds c tid → s.flightCount tid = 0) ∧
  (∀ tid, s.flightCount tid ≤ 1) ∧
  (∀ c t nft, s.ledgers c t = some nft → nft.token_id = t)


/-- The token id minted by the witness scenario. -/
def demoTid : TokenId := ⟨sha3_256 (tokenIdStream demoChain demoApp "mint" demoMinter 0)⟩

/-- The `Nft` minted by the witness scenario. -/
def demoNft : Nft := ⟨demoTid, demoMinter, "mint", demoMinter⟩

/-- The state reached from the initial state by one `Mint`. -/
def demoMintState : SysState :=
  { (initState.setLedger demoChain demoTid (some demoNft)) with
    counters := fun c => if c = demoChain then initState.counters demoChain + 1
      else initState.counters c }


/-- The `Account`-typed values a `Message` carries in its payload, read off
the `Message` type in lib.rs: a `Transfer` carries only the target account
(its `Nft` has no `Account` field, only the `AccountOwner` in `nft.owner`);
a `Claim` carries its source and target accounts. -/
def Message.embeddedAccounts : Message → List Account
  | .Transfer _ target_account => [target_account]
  | .Claim source_account _ target_account => [source_account, target_account]

/-- The pre-transfer owner of the C1 scenario. -/
def preOwner : AccountOwner := ⟨[21]⟩

/-- The chain holding the token before the C1 scenario's transfer. -/
def preChain : ChainId := ⟨[22]⟩

/-- The pre-transfer owner's `Account`: the holding chain plus the owner. -/
def preAccount : Account := ⟨preChain, preOwner⟩

/-- The token being transferred in the C1 scenario. -/
def preNft : Nft := ⟨⟨[5]⟩, preOwner, "p", preOwner⟩

/-- The remote target of the C1 scenario's transfer. -/
def preTarget : Account := ⟨⟨[23]⟩, ⟨[24]⟩⟩

/-- A state in which `preNft` is stored on `preChain` and nothing is in
flight. -/
def preState : SysState :=
  { ledgers := fun c t => if c = preChain ∧ t = preNft.token_id then some preNft else none,
    counters := fun _ => 0,
    inFlight := [] }


/-! ## Basic lemmas about `create_token_id` and the digest -/

/-- `create_token_id` reduces to the digest of the ordered concatenation of
its serialized inputs. -/
theorem create_token_id_eq (c : ChainId) (a : ApplicationId) (p : String)
    (m : AccountOwner) (n : Nat) :
    Nft.create_token_id c a p m n = Except.ok ⟨sha3_256 (tokenIdStream c a p m n)⟩ :=
  rfl

/-- The digest always has 32 bytes, whatever the message. -/
theorem sha3_256_length (msg : List Nat) : (sha3_256 msg).length = 32 := by
  simp [sha3_256, word64Bytes]

/-- The eight little-endian bytes determine the 64-bit value. -/
theorem word64Bytes_inj {a b : Nat} (ha : a < 2 ^ 64) (hb : b < 2 ^ 64)
    (h : word64Bytes a = word64Bytes b) : a = b := by
  have ha2 : a < 18446744073709551616 := by exact_mod_cast ha
  have hb2 : b < 18446744073709551616 := by exact_mod_cast hb
  simp only [word64Bytes, List.cons.injEq, and_true] at h
  norm_num at h
  omega

/-- The digest input stream determines the counter (two streams built from
the same identifiers and prompt but different `u64` counters differ). -/
theorem tokenIdStream_counter_inj (c : ChainId) (a : ApplicationId) (p : String)
    (m : AccountOwner) {n1 n2 : Nat} (h1 : n1 < 2 ^ 64) (h2 : n2 < 2 ^ 64)
    (h : tokenIdStream c a p m n1 = tokenIdStream c a p m n2) : n1 = n2 := by
  unfold tokenIdStream at h
  have h4 := List.append_cancel_left h
  rw [Nat.mod_eq_of_lt h1, Nat.mod_eq_of_lt h2] at h4
  exact word64Bytes_inj h1 h2 h4

/-! ## Claims about `create_token_id`, `NftOutput::new` and `Display` -/

/-- C3: for every input `(chain_id, application_id, prompt, minter,
num_minted_nfts)`, `create_token_id` computes the `TokenId` as the SHA3-256
digest of the concatenation, in the fixed field order chain identifier,
application identifier, prompt bytes, minter identifier, mint counter, of
the canonically (BCS) serialized chain identifier, application identifier
and minter identifier, the prompt's raw bytes, and the serialized counter. -/
theorem create_token_id_digest_stream (c : ChainId) (a : ApplicationId)
    (p : String) (m : AccountOwner) (n : Nat) :
    Nft.create_token_id c a p m n =
      Except.ok ⟨sha3_256 (c.bcsBytes ++ a.bcsBytes ++ stringUtf8 p ++
        m.bcsBytes ++ word64Bytes (n % 2 ^ 64))⟩ := by
  rw [create_token_id_eq]
  simp [tokenIdStream, List.append_assoc]

/-- C5: `create_token_id` is deterministic; for a fixed input tuple, any
two invocations return the same `TokenId`. -/
theorem create_token_id_deterministic (c : ChainId) (a : ApplicationId)
    (p : String) (m : AccountOwner) (n : Nat) (t1 t2 : TokenId)
    (h1 : Nft.create_token_id c a p m n = Except.ok t1)
    (h2 : Nft.create_token_id c a p m n = Except.ok t2) : t1 = t2 := by
  rw [h1] at h2
  exact Except.ok.inj h2

/-- Witness for C5 at a concrete input. -/
theorem create_token_id_deterministic_witness :
    (⟨sha3_256 (tokenIdStream demoChain demoApp "demo" demoMinter 0)⟩ : TokenId) =
      ⟨sha3_256 (tokenIdStream demoChain demoApp "demo" demoMinter 0)⟩ :=
  create_token_id_deterministic demoChain demoApp "demo" demoMinter 0
    ⟨sha3_256 (tokenIdStream demoChain demoApp "demo" demoMinter 0)⟩
    ⟨sha3_256 (tokenIdStream demoChain demoApp "demo" demoMinter 0)⟩ rfl rfl

/-- C6: every `TokenId` produced by `create_token_id` carries the 32-byte
output of the SHA3-256 digest. -/
theorem create_token_id_length32 (c : ChainId) (a : ApplicationId)
    (p : String) (m : AccountOwner) (n : Nat) (t : TokenId)
    (h : Nft.create_token_id c a p m n = Except.ok t) : t.id.length = 32 := by
  rw [create_token_id_eq] at h
  cases Except.ok.inj h
  exact sha3_256_length _

/-- Witness for C6 at a concrete input. -/
theorem create_token_id_length32_witness :
    (⟨sha3_256 (tokenIdStream demoChain demoApp "demo" demoMinter 0)⟩ : TokenId).id.length = 32 :=
  create_token_id_length32 demoChain demoApp "demo" demoMinter 0
    ⟨sha3_256 (tokenIdStream demoChain demoApp "demo" demoMinter 0)⟩ rfl

/-- C8: `create_token_id` is total; it returns `Ok` on every input and the
`bcs::Error` branch of its `Result` is unreachable. -/
theorem create_token_id_never_fails (c : ChainId) (a : ApplicationId)
    (p : String) (m : AccountOwner) (n : Nat) :
    (∃ t, Nft.create_token_id c a p m n = Except.ok t) ∧
      ∀ e, Nft.create_token_id c a p m n ≠ Except.error e := by
  refine ⟨⟨_, create_token_id_eq c a p m n⟩, fun e h => ?_⟩
  rw [create_token_id_eq] at h
  exact Except.noConfusion h

/-- C7: `NftOutput::new` base64-encodes (standard alphabet, no padding) the
raw token id bytes and copies the `owner`, `prompt` and `minter` fields. -/
theorem nft_output_new_fields (nft : Nft) :
    (NftOutput.new nft).token_id = standardNoPadEncode nft.token_id.id ∧
    (NftOutput.new nft).owner = nft.owner ∧
    (NftOutput.new nft).prompt = nft.prompt ∧
    (NftOutput.new nft).minter = nft.minter :=
  ⟨rfl, rfl, rfl, rfl⟩

/-- No base64 digit is an opening square bracket. -/
theorem base64Char_ne_bracket (k : Nat) : base64Char k ≠ '[' := by
  have h : k % 64 < 64 := Nat.mod_lt _ (by norm_num)
  have h2 : ∀ j < 64, base64Alphabet.getD j 'A' ≠ '[' := by decide
  exact h2 _ h

/-- The base64 digits of a nonempty byte sequence start with the digit of
the high six bits of the first byte. -/
theorem base64Chunks_cons_head (b : Nat) (l : List Nat) :
    ∃ rest, base64Chunks (b :: l) = base64Char (b / 4) :: rest :=
  match l with
  | [] => ⟨_, rfl⟩
  | [_] => ⟨_, rfl⟩
  | _ :: _ :: _ => ⟨_, rfl⟩

/-- C9 (implicit): the `Display` implementation for `TokenId` renders the
debug representation of the raw byte vector (a bracketed list of decimal
byte values), not the base64 text-safe encoding: for every `TokenId` `t`,
the displayed string equals the `Debug` formatting of `t.id` and differs
from the unpadded standard base64 encoding of `t.id`. -/
theorem token_id_display_debug (t : TokenId) :
    t.display = debugByteList t.id ∧ t.display ≠ standardNoPadEncode t.id := by
  refine ⟨rfl, fun h => ?_⟩
  have hlb : ("[" : String).data = ['['] := rfl
  have hrb : ("]" : String).data = [']'] := rfl
  have hdata : '[' :: ((String.intercalate ", " (t.id.map toString)).data ++ [']']) =
      base64Chunks t.id := by
    have h2 := congrArg String.data h
    simpa [TokenId.display, debugByteList, standardNoPadEncode,
      String.data_append, hlb, hrb] using h2
  cases hl : t.id with
  | nil =>
    rw [hl] at hdata
    exact List.noConfusion hdata
  | cons b l2 =>
    obtain ⟨rest, hr⟩ := base64Chunks_cons_head b l2
    rw [hl, hr] at hdata
    injection hdata with hhead _
    exact base64Char_ne_bracket _ hhead.symm

/-- C10 (implicit): the byte stream `create_token_id` feeds to the digest
is not an injective encoding of its inputs: the prompt contributes its raw
bytes with no length prefix before the serialized minter, so two distinct
input tuples differing in prompt and minter can produce byte-for-byte
identical digest inputs, and hence the same `TokenId`. -/
theorem token_id_stream_collision :
    (collidePromptA ≠ collidePromptB ∧ collideMinterA ≠ collideMinterB) ∧
    tokenIdStream demoChain demoApp collidePromptA collideMinterA 5 =
      tokenIdStream demoChain demoApp collidePromptB collideMinterB 5 ∧
    Nft.create_token_id demoChain demoApp collidePromptA collideMinterA 5 =
      Nft.create_token_id demoChain demoApp collidePromptB collideMinterB 5 := by
  exact ⟨⟨by decide, by decide⟩, by decide, rfl⟩

/-- C4: for fixed `(chain_id, application_id, prompt, minter)` and two
distinct `u64` mint counters, `create_token_id` returns distinct TokenIds.
The hypothesis `hnc` encodes the specification's standing assumption (§4.1)
that a collision of the digest is cryptographically impossible, localized
to the two digest inputs at hand; everything else is proved: the two
streams really differ (the counter is serialized injectively), so distinct
counters give distinct TokenIds whenever SHA3-256 does not collide on the
two streams. -/
theorem create_token_id_counter_uniqueness (c : ChainId) (a : ApplicationId)
    (p : String) (m : AccountOwner) (n1 n2 : Nat) (t1 t2 : TokenId)
    (hb1 : n1 < 2 ^ 64) (hb2 : n2 < 2 ^ 64) (hne : n1 ≠ n2)
    (e1 : Nft.create_token_id c a p m n1 = Except.ok t1)
    (e2 : Nft.create_token_id c a p m n2 = Except.ok t2)
    (hnc : sha3_256 (tokenIdStream c a p m n1) = sha3_256 (tokenIdStream c a p m n2) →
      tokenIdStream c a p m n1 = tokenIdStream c a p m n2) :
    t1 ≠ t2 := by
  rw [create_token_id_eq] at e1 e2
  cases Except.ok.inj e1
  cases Except.ok.inj e2
  intro heq
  exact hne (tokenIdStream_counter_inj c a p m hb1 hb2 (hnc (congrArg TokenId.id heq)))

set_option maxRecDepth 100000 in
/-- Witness for C4 at a concrete input: counters `0` and `1`; the
no-collision hypothesis is discharged by evaluating both digests. -/
theorem create_token_id_counter_uniqueness_witness :
    (⟨sha3_256 (tokenIdStream demoChain demoApp "" demoMinter 0)⟩ : TokenId) ≠
      ⟨sha3_256 (tokenIdStream demoChain demoApp "" demoMinter 1)⟩ :=
  create_token_id_counter_uniqueness demoChain demoApp "" demoMinter 0 1
    ⟨sha3_256 (tokenIdStream demoChain demoApp "" demoMinter 0)⟩
    ⟨sha3_256 (tokenIdStream demoChain demoApp "" demoMinter 1)⟩
    (by norm_num) (by norm_num) (by decide) rfl rfl (by decide)

/-- The initial state satisfies the invariant. -/
theorem inv_init : Inv initState := by
  refine ⟨?_, ?_, ?_, ?_⟩
  · intro tid c1 c2 h1 _
    simp [SysState.holds, initState] at h1
  · intro tid c h1
    simp [SysState.holds, initState] at h1
  · intro tid
    simp [SysState.flightCount, initState]
  · intro c t nft h1
    simp [initState] at h1

/-- Every protocol step preserves the invariant. -/
theorem inv_step {app : ApplicationId} {s s2 : SysState} (hs : Inv s)
    (hstep : Step app s s2) : Inv s2 := by
  obtain ⟨huniq, hnoflight, hcount, hkey⟩ := hs
  cases hstep with
  | mint chain minter prompt tid hderive hfresh hflight =>
    refine ⟨?_, ?_, ?_, ?_⟩
    · intro t c1 c2 h1 h2
      simp only [SysState.holds, SysState.setLedger] at h1 h2
      by_cases e1 : c1 = chain ∧ t = tid
      · by_cases e2 : c2 = chain ∧ t = tid
        · rw [e1.1, e2.1]
        · rw [if_neg e2] at h2
          obtain ⟨_, ht⟩ := e1
          subst ht
          rw [hfresh c2] at h2
          simp at h2
      · rw [if_neg e1] at h1
        by_cases e2 : c2 = chain ∧ t = tid
        · obtain ⟨_, ht⟩ := e2
          subst ht
          rw [hfresh c1] at h1
          simp at h1
        · rw [if_neg e2] at h2
          exact huniq t c1 c2 h1 h2
    · intro t c h1
      simp only [SysState.holds, SysState.setLedger] at h1
      show s.flightCount t = 0
      by_cases e : c = chain ∧ t = tid
      · obtain ⟨_, ht⟩ := e
        subst ht
        exact hflight
      · rw [if_neg e] at h1
        exact hnoflight t c h1
    · intro t
      exact hcount t
    · intro c t nft2 hsome
      simp only [SysState.setLedger] at hsome
      by_cases e : c = chain ∧ t = tid
      · rw [if_pos e] at hsome
        cases Option.some.inj hsome
        exact e.2.symm
      · rw [if_neg e] at hsome
        exact hkey c t nft2 hsome
  | transferLocal chain source_owner tid target nft hstored howner hlocal =>
    have hiff : ∀ c t, ((s.setLedger chain tid
        (some { nft with owner := target.owner })).ledgers c t).isSome =
        (s.ledgers c t).isSome := by
      intro c t
      simp only [SysState.setLedger]
      by_cases e : c = chain ∧ t = tid
      · rw [if_pos e, e.1, e.2, hstored]
        rfl
      · rw [if_neg e]
    refine ⟨?_, ?_, ?_, ?_⟩
    · intro t c1 c2 h1 h2
      simp only [SysState.holds, hiff] at h1 h2
      exact huniq t c1 c2 h1 h2
    · intro t c h1
      simp only [SysState.holds, hiff] at h1
      exact hnoflight t c h1
    · intro t
      exact hcount t
    · intro c t nft2 hsome
      simp only [SysState.setLedger] at hsome
      by_cases e : c = chain ∧ t = tid
      · rw [if_pos e] at hsome
        cases Option.some.inj hsome
        have := hkey chain tid nft hstored
        simpa [e.2] using this
      · rw [if_neg e] at hsome
        exact hkey c t nft2 hsome
  | transferRemote chain source_owner tid target nft hstored howner hremote =>
    have hkeynft : nft.token_id = tid := hkey chain tid nft hstored
    have hsub : ∀ c t, ((s.setLedger chain tid none).ledgers c t).isSome = true →
        (s.ledgers c t).isSome = true := by
      intro c t h
      simp only [SysState.setLedger] at h
      by_cases e : c = chain ∧ t = tid
      · rw [if_pos e] at h
        simp at h
      · rwa [if_neg e] at h
    have hfc : ∀ t, SysState.flightCount
        { (s.setLedger chain tid none) with
          inFlight := ⟨chain, target.chain_id, .Transfer nft target⟩ :: s.inFlight } t =
        (if tid = t then 1 else 0) + s.flightCount t := by
      intro t
      simp [SysState.flightCount, SysState.setLedger, List.countP_cons,
        Packet.carriesTid, hkeynft, Nat.add_comm]
    refine ⟨?_, ?_, ?_, ?_⟩
    · intro t c1 c2 h1 h2
      exact huniq t c1 c2 (hsub c1 t h1) (hsub c2 t h2)
    · intro t c h1
      rw [hfc t]
      have hold := hsub c t h1
      by_cases e : tid = t
      · subst e
        have hceq : c = chain :=
          huniq tid c chain hold (by simp [SysState.holds, hstored])
        subst hceq
        simp [SysState.holds, SysState.setLedger] at h1
      · rw [if_neg e]
        simpa using hnoflight t c hold
    · intro t
      rw [hfc t]
      by_cases e : tid = t
      · subst e
        rw [if_pos rfl]
        have := hnoflight tid chain (by simp [SysState.holds, hstored])
        omega
      · rw [if_neg e]
        simpa using hcount t
    · intro c t nft2 hsome
      simp only [SysState.setLedger] at hsome
      by_cases e : c = chain ∧ t = tid
      · rw [if_pos e] at hsome
        exact Option.noConfusion hsome
      · rw [if_neg e] at hsome
        exact hkey c t nft2 hsome
  | claimRequest chain source_account tid target hremote =>
    have hfc : ∀ t, SysState.flightCount
        { s with inFlight :=
            ⟨chain, source_account.chain_id, .Claim source_account tid target⟩ ::
              s.inFlight } t = s.flightCount t := by
      intro t
      simp [SysState.flightCount, List.countP_cons, Packet.carriesTid]
    refine ⟨?_, ?_, ?_, ?_⟩
    · intro t c1 c2 h1 h2
      exact huniq t c1 c2 h1 h2
    · intro t c h1
      rw [hfc t]
      exact hnoflight t c h1
    · intro t
      rw [hfc t]
      exact hcount t
    · intro c t nft2 hsome
      exact hkey c t nft2 hsome
  | deliverTransfer l1 l2 origin nft target hsplit hfree =>
    have hcnt0 : s.flightCount nft.token_id =
        (l1.countP (fun p => p.carriesTid nft.token_id)) + 1 +
          (l2.countP (fun p => p.carriesTid nft.token_id)) := by
      simp [SysState.flightCount, hsplit, List.countP_append, List.countP_cons,
        Packet.carriesTid]
      omega
    have hl1 : l1.countP (fun p => p.carriesTid nft.token_id) = 0 := by
      have := hcount nft.token_id
      omega
    have hl2 : l2.countP (fun p => p.carriesTid nft.token_id) = 0 := by
      have := hcount nft.token_id
      omega
    have hnores : ∀ c, ¬ s.holds c nft.token_id := by
      intro c hc
      have := hnoflight nft.token_id c hc
      omega
    have hfc : ∀ t, SysState.flightCount
        { (s.setLedger target.chain_id nft.token_id
            (some { nft with owner := target.owner })) with inFlight := l1 ++ l2 } t =
        l1.countP (fun p => p.carriesTid t) + l2.countP (fun p => p.carriesTid t) := by
      intro t
      simp [SysState.flightCount, List.countP_append]
    have hfcold : ∀ t, t ≠ nft.token_id → s.flightCount t =
        l1.countP (fun p => p.carriesTid t) + l2.countP (fun p => p.carriesTid t) := by
      intro t ht
      have ht2 : ¬ nft.token_id = t := fun h => ht h.symm
      simp [SysState.flightCount, hsplit, List.countP_append, List.countP_cons,
        Packet.carriesTid, ht2]
    refine ⟨?_, ?_, ?_, ?_⟩
    · intro t c1 c2 h1 h2
      simp only [SysState.holds, SysState.setLedger] at h1 h2
      by_cases e1 : c1 = target.chain_id ∧ t = nft.token_id
      · by_cases e2 : c2 = target.chain_id ∧ t = nft.token_id
        · rw [e1.1, e2.1]
        · rw [if_neg e2] at h2
          obtain ⟨_, ht⟩ := e1
          subst ht
          exact absurd h2 (hnores c2)
      · rw [if_neg e1] at h1
        by_cases e2 : c2 = target.chain_id ∧ t = nft.token_id
        · obtain ⟨_, ht⟩ := e2
          subst ht
          exact absurd h1 (hnores c1)
        · rw [if_neg e2] at h2
          exact huniq t c1 c2 h1 h2
    · intro t c h1
      rw [hfc t]
      by_cases e : t = nft.token_id
      · subst e
        simp [hl1, hl2]
      · simp only [SysState.holds, SysState.setLedger] at h1
        rw [if_neg (fun h => e h.2)] at h1
        have := hnoflight t c h1
        rw [hfcold t e] at this
        omega
    · intro t
      rw [hfc t]
      by_cases e : t = nft.token_id
      · subst e
        simp [hl1, hl2]
      · have := hcount t
        rw [hfcold t e] at this
        omega
    · intro c t nft2 hsome
      simp only [SysState.setLedger] at hsome
      by_cases e : c = target.chain_id ∧ t = nft.token_id
      · rw [if_pos e] at hsome
        cases Option.some.inj hsome
        exact e.2.symm
      · rw [if_neg e] at hsome
        exact hkey c t nft2 hsome
  | bounceTransfer l1 l2 origin dest nft target hsplit hfree =>
    have hcnt0 : s.flightCount nft.token_id =
        (l1.countP (fun p => p.carriesTid nft.token_id)) + 1 +
          (l2.countP (fun p => p.carriesTid nft.token_id)) := by
      simp [SysState.flightCount, hsplit, List.countP_append, List.countP_cons,
        Packet.carriesTid]
      omega
    have hl1 : l1.countP (fun p => p.carriesTid nft.token_id) = 0 := by
      have := hcount nft.token_id
      omega
    have hl2 : l2.countP (fun p => p.carriesTid nft.token_id) = 0 := by
      have := hcount nft.token_id
      omega
    have hnores : ∀ c, ¬ s.holds c nft.token_id := by
      intro c hc
      have := hnoflight nft.token_id c hc
      omega
    have hfc : ∀ t, SysState.flightCount
        { (s.setLedger origin nft.token_id (some nft)) with inFlight := l1 ++ l2 } t =
        l1.countP (fun p => p.carriesTid t) + l2.countP (fun p => p.carriesTid t) := by
      intro t
      simp [SysState.flightCount, List.countP_append]
    have hfcold : ∀ t, t ≠ nft.token_id → s.flightCount t =
        l1.countP (fun p => p.carriesTid t) + l2.countP (fun p => p.carriesTid t) := by
      intro t ht
      have ht2 : ¬ nft.token_id = t := fun h => ht h.symm
      simp [SysState.flightCount, hsplit, List.countP_append, List.countP_cons,
        Packet.carriesTid, ht2]
    refine ⟨?_, ?_, ?_, ?_⟩
    · intro t c1 c2 h1 h2
      simp only [SysState.holds, SysState.setLedger] at h1 h2
      by_cases e1 : c1 = origin ∧ t = nft.token_id
      · by_cases e2 : c2 = origin ∧ t = nft.token_id
        · rw [e1.1, e2.1]
        · rw [if_neg e2] at h2
          obtain ⟨_, ht⟩ := e1
          subst ht
          exact absurd h2 (hnores c2)
      · rw [if_neg e1] at h1
        by_cases e2 : c2 = origin ∧ t = nft.token_id
        · obtain ⟨_, ht⟩ := e2
          subst ht
          exact absurd h1 (hnores c1)
        · rw [if_neg e2] at h2
          exact huniq t c1 c2 h1 h2
    · intro t c h1
      rw [hfc t]
      by_cases e : t = nft.token_id
      · subst e
        simp [hl1, hl2]
      · simp only [SysState.holds, SysState.setLedger] at h1
        rw [if_neg (fun h => e h.2)] at h1
        have := hnoflight t c h1
        rw [hfcold t e] at this
        omega
    · intro t
      rw [hfc t]
      by_cases e : t = nft.token_id
      · subst e
        simp [hl1, hl2]
      · have := hcount t
        rw [hfcold t e] at this
        omega
    · intro c t nft2 hsome
      simp only [SysState.setLedger] at hsome
      by_cases e : c = origin ∧ t = nft.token_id
      · rw [if_pos e] at hsome
        cases Option.some.inj hsome
        exact e.2.symm
      · rw [if_neg e] at hsome
        exact hkey c t nft2 hsome
  | deliverClaim l1 l2 origin source_account tid target nft hsplit hstored howner =>
    have hkeynft : nft.token_id = tid := hkey source_account.chain_id tid nft hstored
    have hheld : s.holds source_account.chain_id tid := by
      simp [SysState.holds, hstored]
    have hcnt0 : s.flightCount tid = 0 := hnoflight tid source_account.chain_id hheld
    have hl1 : l1.countP (fun p => p.carriesTid tid) = 0 := by
      have : s.flightCount tid =
          l1.countP (fun p => p.carriesTid tid) +
            l2.countP (fun p => p.carriesTid tid) := by
        simp [SysState.flightCount, hsplit, List.countP_append, List.countP_cons,
          Packet.carriesTid]
      omega
    have hl2 : l2.countP (fun p => p.carriesTid tid) = 0 := by
      have : s.flightCount tid =
          l1.countP (fun p => p.carriesTid tid) +
            l2.countP (fun p => p.carriesTid tid) := by
        simp [SysState.flightCount, hsplit, List.countP_append, List.countP_cons,
          Packet.carriesTid]
      omega
    have hsub : ∀ c t, ((s.setLedger source_account.chain_id tid none).ledgers c t).isSome =
        true → (s.ledgers c t).isSome = true := by
      intro c t h
      simp only [SysState.setLedger] at h
      by_cases e : c = source_account.chain_id ∧ t = tid
      · rw [if_pos e] at h
        simp at h
      · rwa [if_neg e] at h
    have hfc : ∀ t, SysState.flightCount
        { (s.setLedger source_account.chain_id tid none) with
          inFlight :=
            ⟨source_account.chain_id, target.chain_id, .Transfer nft target⟩ ::
              (l1 ++ l2) } t =
        (if tid = t then 1 else 0) +
          (l1.countP (fun p => p.carriesTid t) + l2.countP (fun p => p.carriesTid t)) := by
      intro t
      simp [SysState.flightCount, List.countP_cons, List.countP_append,
        Packet.carriesTid, hkeynft, Nat.add_comm]
    have hfcold : ∀ t, t ≠ tid → s.flightCount t =
        l1.countP (fun p => p.carriesTid t) + l2.countP (fun p => p.carriesTid t) := by
      intro t _
      simp [SysState.flightCount, hsplit, List.countP_append, List.countP_cons,
        Packet.carriesTid]
    refine ⟨?_, ?_, ?_, ?_⟩
    · intro t c1 c2 h1 h2
      exact huniq t c1 c2 (hsub c1 t h1) (hsub c2 t h2)
    · intro t c h1
      rw [hfc t]
      have hold := hsub c t h1
      by_cases e : tid = t
      · subst e
        have hceq : c = source_account.chain_id :=
          huniq tid c source_account.chain_id hold hheld
        subst hceq
        simp [SysState.holds, SysState.setLedger] at h1
      · rw [if_neg e]
        have := hnoflight t c hold
        rw [hfcold t (fun h => e h.symm)] at this
        omega
    · intro t
      rw [hfc t]
      by_cases e : tid = t
      · subst e
        rw [if_pos rfl]
        simp [hl1, hl2]
      · rw [if_neg e]
        have := hcount t
        rw [hfcold t (fun h => e h.symm)] at this
        omega
    · intro c t nft2 hsome
      simp only [SysState.setLedger] at hsome
      by_cases e : c = source_account.chain_id ∧ t = tid
      · rw [if_pos e] at hsome
        exact Option.noConfusion hsome
      · rw [if_neg e] at hsome
        exact hkey c t nft2 hsome
  | bounceClaim l1 l2 origin dest source_account tid target hsplit =>
    have hfc : ∀ t, SysState.flightCount { s with inFlight := l1 ++ l2 } t =
        s.flightCount t := by
      intro t
      simp [SysState.flightCount, hsplit, List.countP_append, List.countP_cons,
        Packet.carriesTid]
    refine ⟨?_, ?_, ?_, ?_⟩
    · intro t c1 c2 h1 h2
      exact huniq t c1 c2 h1 h2
    · intro t c h1
      rw [hfc t]
      exact hnoflight t c h1
    · intro t
      rw [hfc t]
      exact hcount t
    · intro c t nft2 hsome
      exact hkey c t nft2 hsome

/-- Every reachable state satisfies the invariant. -/
theorem inv_reachable {app : ApplicationId} {s : SysState} (h : Reachable app s) :
    Inv s := by
  induction h with
  | init => exact inv_init
  | step _ hstep ih => exact inv_step ih hstep

/-- C2: in every reachable system state, under any interleaving of
operations, message deliveries and bounces, no `TokenId` has a ledger entry
on more than one chain simultaneously. -/
theorem no_duplication (app : ApplicationId) (s : SysState) (h : Reachable app s)
    (tid : TokenId) (c1 c2 : ChainId) (h1 : s.holds c1 tid) (h2 : s.holds c2 tid) :
    c1 = c2 :=
  (inv_reachable h).1 tid c1 c2 h1 h2

/-- Witness for C2: a state reached by one concrete `Mint` holds the minted
token on the minting chain, and both hypotheses of the claim pick that
chain. -/
theorem no_duplication_witness : demoChain = demoChain :=
  no_duplication demoApp demoMintState
    (Reachable.step Reachable.init
      (Step.mint initState demoChain demoMinter "mint" demoTid rfl (fun _ => rfl) rfl))
    demoTid demoChain demoChain
    (by simp [SysState.holds, demoMintState, SysState.setLedger, initState])
    (by simp [SysState.holds, demoMintState, SysState.setLedger, initState])

/-- C1 counterexample: a concrete cross-chain transfer emits a
`Message::Transfer` whose payload does not contain the pre-transfer owner's
`Account` anywhere among its `Account`-typed fields — the payload embeds
the target account only, and the pre-transfer owner survives only as the
`AccountOwner` in `nft.owner`. -/
theorem message_transfer_lacks_source_account :
    Step demoApp preState
      { (preState.setLedger preChain preNft.token_id none) with
        inFlight := [⟨preChain, preTarget.chain_id, .Transfer preNft preTarget⟩] } ∧
    preAccount.owner = preNft.owner ∧
    preAccount ∉ (Message.Transfer preNft preTarget).embeddedAccounts := by
  refine ⟨?_, rfl, by decide⟩
  exact Step.transferRemote preState preChain preOwner preNft.token_id preTarget preNft
    (by simp [preState]) rfl (by decide)

/-- C1 amended: the `Message::Transfer` payload embeds the pre-transfer
owner only as the `AccountOwner` carried in `nft.owner`, not as a full
`Account`; bounce compensation is nonetheless self-contained: after a
cross-chain transfer of a stored `nft`, the bounce path reinserts on the
origin chain exactly the `Nft` carried by the message — its owner reset to
the pre-transfer owner — independent of any ledger history. -/
theorem transfer_bounce_roundtrip (app : ApplicationId) (s : SysState)
    (chain : ChainId) (tid : TokenId) (target : Account) (nft : Nft)
    (hstored : s.ledgers chain tid = some nft) (hkey : nft.token_id = tid)
    (hremote : target.chain_id ≠ chain) :
    ∃ s1 s2 : SysState, Step app s s1 ∧ Step app s1 s2 ∧
      s2.ledgers chain tid = some nft := by
  subst hkey
  refine ⟨_, _,
    Step.transferRemote s chain nft.owner nft.token_id target nft hstored rfl hremote,
    Step.bounceTransfer _ [] s.inFlight chain target.chain_id nft target rfl ?_, ?_⟩
  · simp [SysState.setLedger]
  · simp [SysState.setLedger]

/-- Witness for C1's amended claim: the concrete C1 scenario, transferred
and bounced, ends with the original `Nft` (original owner included) back on
its chain. -/
theorem transfer_bounce_roundtrip_witness :
    ∃ s1 s2 : SysState, Step demoApp preState s1 ∧ Step demoApp s1 s2 ∧
      s2.ledgers preChain preNft.token_id = some preNft :=
  transfer_bounce_roundtrip demoApp preState preChain preNft.token_id preTarget preNft
    (by simp [preState]) rfl (by decide)

end GenNft
